import Mathlib

/-!
Shallow embedding of the hbcd-redcap2rs conversion workflow.

The repository has two near-duplicate scripts:
- convert_reproschema.py (the ascending variant): selects CSV files whose
  revision exceeds the baseline, sorts them ascending by revision, and hands
  them to convert_files.
- update_hbcd_red2rs.py (the descending variant): sorts the raw directory
  listing lexicographically (descending when the baseline is nonzero),
  iterates with an early break, and converts files whose revision is at
  least 101.

Filesystem, subprocess and git effects are modelled as an event trace; the
outcome of a run is an Except value, where an error constructor records an
unhandled Python exception ending the run.
-/

/-- Unhandled Python exceptions that the modelled scripts can raise. -/
inductive PyErr
  | indexError
  | valueError
  | nameError
  | jsonError
deriving DecidableEq, Repr

deriving instance DecidableEq for Except

/-!
Kernel-computable string primitives. The Python string operations used by the
scripts (split, replace, endswith, int conversion, lexicographic comparison)
are given structural definitions over the character list of a string so that
concrete runs evaluate inside the kernel. Each matches the Python semantics:
split on an explicit separator keeps empty segments, replace rewrites
non-overlapping occurrences left to right, and comparison is lexicographic by
code point.
-/

/-- Python str.split on a one-character separator, keeping empty segments. -/
def splitChars (sep : Char) : List Char → List Char → List (List Char)
  | [], acc => [acc.reverse]
  | c :: rest, acc =>
    if c = sep then acc.reverse :: splitChars sep rest []
    else splitChars sep rest (c :: acc)

/-- Python str.replace over character lists, driven by a fuel counter equal to
the length of the scanned list so that the recursion is structural. -/
def replaceFuel (pat repl : List Char) : Nat → List Char → List Char
  | _, [] => []
  | 0, l => l
  | Nat.succ n, c :: rest =>
    if pat.isPrefixOf (c :: rest) then
      repl ++ replaceFuel pat repl n (List.drop (pat.length - 1) rest)
    else c :: replaceFuel pat repl n rest

/-- Python str.replace with a nonempty pattern. -/
def replaceS (s pat repl : String) : String :=
  ⟨replaceFuel pat.data repl.data s.data.length s.data⟩

/-- Python str.endswith. -/
def endsWithS (s suffix : String) : Bool := suffix.data.isSuffixOf s.data

/-- Numeric value of a decimal digit character. -/
def digitVal (c : Char) : Option Nat :=
  if c.isDigit then some (c.toNat - 48) else none

/-- Decimal parse of a nonempty digit string. -/
def natOfChars : List Char → Option Nat
  | [] => none
  | [c] => digitVal c
  | c :: rest =>
    match digitVal c, natOfChars rest with
    | some d, some n => some (d * 10 ^ rest.length + n)
    | _, _ => none

/-- Python int applied to a string: an optional sign followed by digits. -/
def intOfChars : List Char → Option Int
  | '-' :: rest => (natOfChars rest).map (fun n => -(n : Int))
  | l => (natOfChars l).map (fun n => (n : Int))

/-- Python int on a string, as an optional integer. -/
def toIntS (s : String) : Option Int := intOfChars s.data

/-- Lexicographic comparison of character lists by code point. -/
def leChars : List Char → List Char → Bool
  | [], _ => true
  | _ :: _, [] => false
  | a :: as, b :: bs =>
    if a.toNat < b.toNat then true
    else if a.toNat = b.toNat then leChars as bs
    else false

/-- Python string comparison, lexicographic by code point. -/
def strLe (a b : String) : Bool := leChars a.data b.data

/-- Python file.split on the underscore separator (line 68 and line 132). -/
def splitParts (f : String) : List String :=
  (splitChars '_' f.data []).map (fun l => ⟨l⟩)

/-- Revision parse used by both scripts: int(parts[-2].replace("revid", "")).
Raises IndexError when fewer than two segments exist and ValueError when the
stripped segment is not an integer. -/
def parseRevE (f : String) : Except PyErr Int :=
  match (splitParts f).reverse with
  | _ :: b :: _ =>
    match toIntS (replaceS b "revid" "") with
    | some n => Except.ok n
    | none => Except.error PyErr.valueError
  | _ => Except.error PyErr.indexError

/-- Total view of the revision number: the parsed value, 0 when the parse fails. -/
def revD (f : String) : Int :=
  match parseRevE f with
  | Except.ok n => n
  | Except.error _ => 0

/-- Whether an Except value is a success. -/
def isOkE {α : Type} : Except PyErr α → Bool
  | Except.ok _ => true
  | Except.error _ => false

/-- Mutating effects performed by a run: config writes, subprocess
invocations, directory moves and git operations. Prints are not modelled. -/
inductive Ev
  | writeYaml (rev : Int)
  | runConvert (csvPath : String)
  | runValidate (dir : String)
  | rmtree (dir : String)
  | moveDir (src dst : String)
  | gitAddU
  | gitCheckout (path : String)
  | gitAdd (path : String)
  | gitCommit (msg : String)
  | createTag (name : String) (rev : Int)
  | pushTag (name : String)
  | pushBranch
deriving DecidableEq, Repr

/-- Configuration constants of update_hbcd_red2rs.py (lines 9 to 11). -/
def input_dir : String := "path/input_dir"

def repo_path : String := "path/hbcd-redcap2rs"

/-- os.path.abspath(input_dir), modelled as the path itself. -/
def absolute_dir : String := input_dir

/-- A structured (JSON object) document, pre-split into its version field and
the remaining fields, matching the pop("version", None) step. -/
structure JDoc where
  version : Option String
  rest : List (String × String)
deriving DecidableEq, Repr

/-- One entry of repo.index.diff(None): the tracked path, the change type, and
the outcome of loading the working tree and HEAD contents as JSON. An error
value records that json.load or json.loads would raise for that revision. -/
structure DiffItem where
  a_path : String
  change_type : String
  workingDoc : Except Unit JDoc
  headDoc : Except Unit JDoc

/-- Core comparison of is_version_only_change (lines 73 to 76): after popping
the version field from both documents, the remaining contents are equal and
the popped version values differ. -/
def is_version_only_change (working lastCommit : JDoc) : Bool :=
  working.rest == lastCommit.rest && working.version != lastCommit.version

/-- Loading both revisions of a changed file (lines 67 to 71); a failed JSON
parse of either revision raises an unhandled exception. -/
def readDocs (i : DiffItem) : Except PyErr (JDoc × JDoc) :=
  match i.workingDoc with
  | Except.error _ => Except.error PyErr.jsonError
  | Except.ok w =>
    match i.headDoc with
    | Except.error _ => Except.error PyErr.jsonError
    | Except.ok h => Except.ok (w, h)

/-- os.path.join(repo_path, item.a_path). -/
def repoFilePath (aPath : String) : String := repo_path ++ "/" ++ aPath

/-- Selection test of the diff loop (line 82): a modified tracked .json
file. -/
def relevantItem (i : DiffItem) : Bool :=
  i.change_type == "M" && endsWithS i.a_path ".json"

/-- The loop body of process_changed_files (lines 81 to 91): for every
modified tracked .json file, check is_version_only_change and check the file
out when it holds (unless in dry-run); a parse failure aborts with the
exception. Returns the checkout events together with an optional exception. -/
def pcfLoop (items : List DiffItem) (dry : Bool) : List Ev × Option PyErr :=
  match items with
  | [] => ([], none)
  | i :: rest =>
    if relevantItem i then
      match readDocs i with
      | Except.error e => ([], some e)
      | Except.ok (w, h) =>
        if is_version_only_change w h then
          if dry then pcfLoop rest dry
          else
            (Ev.gitCheckout (repoFilePath i.a_path) :: (pcfLoop rest dry).1,
              (pcfLoop rest dry).2)
        else pcfLoop rest dry
    else pcfLoop rest dry

/-- process_changed_files (lines 78 to 91): repo.git.add(update=True) runs
unconditionally before the diff scan, then the loop body runs per item. -/
def process_changed_files (items : List DiffItem) (dry : Bool) : List Ev × Option PyErr :=
  (Ev.gitAddU :: (pcfLoop items dry).1, (pcfLoop items dry).2)

/-- Outcome of fetching and JSON-parsing the schema artifact at a tagged
commit: the path can be missing or unreadable, the content can fail to parse,
or it parses to an object whose version field may be absent. -/
inductive SchemaFetch
  | missing
  | unparseable
  | parsed (version : Option String)
deriving DecidableEq, Repr

/-- A repository tag: its name and the fetch outcome for each path at its
commit. -/
structure TagRec where
  name : String
  fetch : String → SchemaFetch

instance : DecidableRel (fun a b : TagRec => strLe a.name b.name = true) :=
  fun a b => inferInstanceAs (Decidable (strLe a.name b.name = true))

/-- sorted(repo.tags, key=lambda t: t.name). -/
def sortTags (tags : List TagRec) : List TagRec :=
  List.insertionSort (fun a b : TagRec => strLe a.name b.name = true) tags

/-- Path of the schema artifact for a protocol. -/
def schemaPath (protocol_name : String) : String :=
  protocol_name ++ "/" ++ protocol_name ++ "_schema"

/-- get_latest_tag_version (update_hbcd_red2rs.py lines 17 to 46 and
convert_reproschema.py lines 14 to 31): sort tags by name, take the last one,
read and parse the schema artifact at its commit, and return the integer left
after stripping revid from the version field (defaulting to revid0); every
failure inside the try block yields 0, and no tags yields 0. -/
def get_latest_tag_version (tags : List TagRec) (protocol_name : String) : Int :=
  match (sortTags tags).getLast? with
  | none => 0
  | some latest =>
    match latest.fetch (schemaPath protocol_name) with
    | SchemaFetch.missing => 0
    | SchemaFetch.unparseable => 0
    | SchemaFetch.parsed v =>
      let version_str := v.getD "revid0"
      match toIntS (replaceS version_str "revid" "") with
      | some n => n
      | none => 0

/-- The two folders staged and moved for each converted file (line 174). -/
def folders_to_update (protocol : String) : List String := [protocol, "activities"]

/-- os.path.join(repo_path, folder). -/
def destPath (folder : String) : String := repo_path ++ "/" ++ folder

/-- Converter output folder os.path.join(absolute_dir, protocol_name). -/
def outputFolderOf (protocol : String) : String := absolute_dir ++ "/" ++ protocol

/-- update_repo (lines 48 to 63): per folder, in dry-run only print;
otherwise remove an existing destination and rename the source into place. -/
def update_repo (outputFolder : String) (folders : List String) (dry : Bool)
    (pathExists : String → Bool) : List Ev :=
  (folders.map (fun folder =>
    if dry then []
    else
      (if pathExists (destPath folder) then [Ev.rmtree (destPath folder)] else []) ++
        [Ev.moveDir (outputFolder ++ "/" ++ folder) (destPath folder)])).flatten

/-- commit_and_tag (lines 93 to 115): stage each existing folder regardless of
dry-run, then, outside dry-run, commit, create the tag and push. The revision
recorded on the createTag event is the revision whose schema artifact the
tagged commit contains. -/
def commit_and_tag (commitMessage tagName : String) (rev : Int) (folders : List String)
    (dry : Bool) (pathExists : String → Bool) : List Ev :=
  (folders.filterMap (fun folder =>
    if pathExists (destPath folder) then some (Ev.gitAdd (destPath folder)) else none)) ++
    (if dry then []
     else [Ev.gitCommit commitMessage, Ev.createTag tagName rev,
       Ev.pushTag tagName, Ev.pushBranch])

/-- Environment of one run of update_hbcd_red2rs.py: the directory listing,
the baseline version, the dry-run flag, the exit behaviour of the two
subprocesses, which paths exist, and the diff items seen by
process_changed_files. -/
structure DescEnv where
  listing : List String
  B : Int
  dry : Bool
  convOk : String → Bool
  valOk : String → Bool
  pathExists : String → Bool
  diffItems : List DiffItem
  protocol : String

/-- Result of one loop iteration: continue, break, return from main, or an
unhandled exception. -/
inductive StepRes
  | next
  | stop
  | ret
  | exn (e : PyErr)
deriving DecidableEq, Repr

/-- Tag name derived from the date and time token (line 180). -/
def tagNameOf (dt : String) : String := replaceS (replaceS dt "-" ".") "_" "."

/-- Commit message derived from the date and time token (line 178). -/
def commitMsgOf (dt : String) : String :=
  "converted hbcd redcap data dictionary " ++ dt ++ " to reproschema"

/-- Processing of one selected file in update_hbcd_red2rs.py main
(lines 139 to 182): write the config, run the converter and the validator
(either failure returns from main), move the output folders, reconcile
spurious changes (which can raise), and commit and tag. In dry-run the
config write, the subprocesses, the moves, the checkout, the commit, the tag
and the pushes are skipped, but the staging inside process_changed_files and
commit_and_tag still happens. -/
def procFile (env : DescEnv) (f dt : String) (rv : Int) : List Ev × StepRes :=
  if env.dry then
    match (process_changed_files env.diffItems true).2 with
    | some e => ((process_changed_files env.diffItems true).1, StepRes.exn e)
    | none =>
      ((process_changed_files env.diffItems true).1 ++
        commit_and_tag (commitMsgOf dt) (tagNameOf dt) rv (folders_to_update env.protocol)
          true env.pathExists,
        StepRes.next)
  else
    if !env.convOk f then
      ([Ev.writeYaml rv, Ev.runConvert (input_dir ++ "/" ++ f)], StepRes.ret)
    else if !env.valOk f then
      ([Ev.writeYaml rv, Ev.runConvert (input_dir ++ "/" ++ f),
        Ev.runValidate (outputFolderOf env.protocol)], StepRes.ret)
    else
      match (process_changed_files env.diffItems false).2 with
      | some e =>
        ([Ev.writeYaml rv, Ev.runConvert (input_dir ++ "/" ++ f),
          Ev.runValidate (outputFolderOf env.protocol)] ++
          update_repo (outputFolderOf env.protocol) (folders_to_update env.protocol) false
            env.pathExists ++ (process_changed_files env.diffItems false).1,
          StepRes.exn e)
      | none =>
        ([Ev.writeYaml rv, Ev.runConvert (input_dir ++ "/" ++ f),
          Ev.runValidate (outputFolderOf env.protocol)] ++
          update_repo (outputFolderOf env.protocol) (folders_to_update env.protocol) false
            env.pathExists ++ (process_changed_files env.diffItems false).1 ++
          commit_and_tag (commitMsgOf dt) (tagNameOf dt) rv (folders_to_update env.protocol)
            false env.pathExists,
          StepRes.next)

/-- One iteration of the filename loop of update_hbcd_red2rs.py main
(lines 130 to 185): skip non CSV names; split the name (raising IndexError
when parts 1 and 2 are missing); parse the revision (ValueError when not an
integer); when the baseline is nonzero and the revision does not exceed it,
break; when the revision is at least 101, process the file. -/
def descStep (env : DescEnv) (f : String) : List Ev × StepRes :=
  if !(endsWithS f ".csv") then ([], StepRes.next)
  else
    match splitParts f with
    | _ :: p1 :: p2 :: _ =>
      let dt := p1 ++ "_" ++ p2
      match parseRevE f with
      | Except.error e => ([], StepRes.exn e)
      | Except.ok rv =>
        if env.B == 0 then
          if rv ≥ 101 then procFile env f dt rv else ([], StepRes.next)
        else
          if rv > env.B then
            if rv ≥ 101 then procFile env f dt rv else ([], StepRes.next)
          else ([], StepRes.stop)
    | _ => ([], StepRes.exn PyErr.indexError)

/-- The filename loop: accumulate events; stop on break or return; an
exception ends the run with an error outcome. -/
def descLoop (env : DescEnv) : List String → List Ev × Except PyErr Unit
  | [] => ([], Except.ok ())
  | f :: rest =>
    match (descStep env f).2 with
    | StepRes.next =>
      ((descStep env f).1 ++ (descLoop env rest).1, (descLoop env rest).2)
    | StepRes.stop => ((descStep env f).1, Except.ok ())
    | StepRes.ret => ((descStep env f).1, Except.ok ())
    | StepRes.exn e => ((descStep env f).1, Except.error e)

instance : DecidableRel (fun a b : String => strLe a b = true) :=
  fun a b => inferInstanceAs (Decidable (strLe a b = true))

instance : DecidableRel (fun a b : String => strLe b a = true) :=
  fun a b => inferInstanceAs (Decidable (strLe b a = true))

/-- sorted(os.listdir(input_dir), reverse=not ascending_order) at line 128:
ascending lexicographic when the baseline is 0, descending otherwise. -/
def sortedFilenames (env : DescEnv) : List String :=
  if env.B == 0 then List.insertionSort (fun a b : String => strLe a b = true) env.listing
  else List.insertionSort (fun a b : String => strLe b a = true) env.listing

/-- update_hbcd_red2rs.py main (lines 117 to 185), with the baseline, the
listing and the external outcomes supplied by the environment. -/
def mainDesc (env : DescEnv) : List Ev × Except PyErr Unit :=
  descLoop env (sortedFilenames env)

/-- The tags created in a trace, with their recorded revisions. -/
def createdTags (evs : List Ev) : List (String × Int) :=
  evs.filterMap (fun e =>
    match e with
    | Ev.createTag n r => some (n, r)
    | _ => none)

/-- The converter invocations of a trace: the CSV paths passed to
reproschema redcap2reproschema. -/
def convertedOf (evs : List Ev) : List String :=
  evs.filterMap (fun e =>
    match e with
    | Ev.runConvert p => some p
    | _ => none)

instance : DecidableRel (fun a b : String => revD a ≤ revD b) :=
  fun a b => inferInstanceAs (Decidable (revD a ≤ revD b))

instance : IsTotal String (fun a b : String => revD a ≤ revD b) :=
  ⟨fun a b => Int.le_total (revD a) (revD b)⟩

instance : IsTrans String (fun a b : String => revD a ≤ revD b) :=
  ⟨fun _ _ _ h1 h2 => le_trans h1 h2⟩

/-- The list comprehension of convert_reproschema.py line 145: parse the
revision of every CSV file in order and keep those exceeding the baseline;
the first parse failure raises. -/
def ascFilterM (csvs : List String) (B : Int) : Except PyErr (List String) :=
  match csvs with
  | [] => Except.ok []
  | f :: rest =>
    match parseRevE f with
    | Except.error e => Except.error e
    | Except.ok rv =>
      match ascFilterM rest B with
      | Except.error e => Except.error e
      | Except.ok l => Except.ok (if rv > B then f :: l else l)

/-- files_to_convert of convert_reproschema.py (lines 144 to 147): the CSV
files whose revision exceeds the baseline, sorted ascending by revision. -/
def ascSelected (csvs : List String) (B : Int) : Except PyErr (List String) :=
  match ascFilterM csvs B with
  | Except.error e => Except.error e
  | Except.ok l => Except.ok (List.insertionSort (fun a b : String => revD a ≤ revD b) l)

/-- convert_files of convert_reproschema.py (lines 63 to 121): per file,
compute the date and time token (IndexError when segments are missing), parse
the revision, and for a file above the baseline either skip it in dry-run or
reach the assignment to yaml_content, a name that is local to main and not
visible here, raising NameError before any effect. -/
def convert_files (files : List String) (B : Int) (dry : Bool) :
    Except PyErr Int × List Ev :=
  match files with
  | [] => (Except.ok 0, [])
  | f :: rest =>
    match splitParts f with
    | _ :: _ :: _ :: _ =>
      match parseRevE f with
      | Except.error e => (Except.error e, [])
      | Except.ok rv =>
        if rv > B then
          if dry then convert_files rest B dry
          else (Except.error PyErr.nameError, [])
        else convert_files rest B dry
    | _ => (Except.error PyErr.indexError, [])

/-- Environment of one run of convert_reproschema.py main. -/
structure AscEnv where
  inputDirExists : Bool
  listing : List String
  B : Int
  dry : Bool

/-- convert_reproschema.py main (lines 123 to 154): missing input directory
returns 1; no CSV files returns 1; an empty selection returns 0; otherwise
convert_files runs on the selection. -/
def mainAsc (env : AscEnv) : Except PyErr Int × List Ev :=
  if !env.inputDirExists then (Except.ok 1, [])
  else
    if (env.listing.filter (fun f => endsWithS f ".csv")).isEmpty then (Except.ok 1, [])
    else
      match ascSelected (env.listing.filter (fun f => endsWithS f ".csv")) env.B with
      | Except.error e => (Except.error e, [])
      | Except.ok files =>
        if files.isEmpty then (Except.ok 0, [])
        else convert_files files env.B env.dry

/-- The process exit status of running convert_reproschema.py as a script
(lines 156 to 161): the return value of main is discarded, so the
interpreter exits 0 whenever main returns and 1 only on an unhandled
exception. -/
def entryExit (env : AscEnv) : Nat :=
  match (mainAsc env).1 with
  | Except.ok _ => 0
  | Except.error _ => 1

/-! ### Helper lemmas -/

theorem revD_eq_of_parse {f : String} {n : Int} (h : parseRevE f = Except.ok n) :
    revD f = n := by
  unfold revD
  rw [h]

theorem readDocs_error_of_not_ok {i : DiffItem} (h : isOkE (readDocs i) = false) :
    readDocs i = Except.error PyErr.jsonError := by
  unfold readDocs at h ⊢
  cases hw : i.workingDoc with
  | error e => rfl
  | ok w =>
    rw [hw] at h
    cases hh : i.headDoc with
    | error e => rfl
    | ok h2 =>
      rw [hh] at h
      simp [isOkE] at h

/-- Decision taken by the diff loop for one item, matching pcfLoop outside
dry-run: the checkout event emitted for the item, when any. -/
def chkFn (i : DiffItem) : Option Ev :=
  if relevantItem i then
    match readDocs i with
    | Except.ok (w, h) =>
      if is_version_only_change w h then some (Ev.gitCheckout (repoFilePath i.a_path))
      else none
    | Except.error _ => none
  else none

theorem pcfLoop_ok (items : List DiffItem)
    (h : ∀ i ∈ items, relevantItem i = true → isOkE (readDocs i) = true) :
    pcfLoop items false = (items.filterMap chkFn, none) := by
  induction items with
  | nil => rfl
  | cons i rest ih =>
    have hi := h i (List.mem_cons_self i rest)
    have hrest : ∀ j ∈ rest, relevantItem j = true → isOkE (readDocs j) = true :=
      fun j hj => h j (List.mem_cons_of_mem i hj)
    have ih' := ih hrest
    unfold pcfLoop
    by_cases hrel : relevantItem i = true
    · cases hdocs : readDocs i with
      | error e =>
        have := hi hrel
        rw [hdocs] at this
        simp [isOkE] at this
      | ok wh =>
        cases wh with
        | mk w hd =>
          by_cases hv : is_version_only_change w hd = true
          · simp [hrel, hdocs, hv, ih', List.filterMap_cons, chkFn]
          · simp [hrel, hdocs, hv, ih', List.filterMap_cons, chkFn]
    · have hrel' : relevantItem i = false := by
        cases hb : relevantItem i
        · rfl
        · exact absurd hb hrel
      simp [hrel', ih', List.filterMap_cons, chkFn]

/-! ### Claim C2 -/

/-- Claim C2 (confirmed): get_latest_tag_version returns 0 when the
repository has no tags, returns 0 when the schema artifact at the
lexicographically last tag cannot be read or cannot be parsed, returns 0 when
the version field is absent (the default revid0 parses to 0), and otherwise
returns the integer parsed from the revid value of the version field. -/
theorem C2_latest_tag_version :
    (∀ p, get_latest_tag_version [] p = 0) ∧
    (∀ tags p t, (sortTags tags).getLast? = some t →
      (t.fetch (schemaPath p) = SchemaFetch.missing ∨
        t.fetch (schemaPath p) = SchemaFetch.unparseable) →
      get_latest_tag_version tags p = 0) ∧
    (∀ tags p t, (sortTags tags).getLast? = some t →
      t.fetch (schemaPath p) = SchemaFetch.parsed none →
      get_latest_tag_version tags p = 0) ∧
    (∀ tags p t v n, (sortTags tags).getLast? = some t →
      t.fetch (schemaPath p) = SchemaFetch.parsed (some v) →
      toIntS (replaceS v "revid" "") = some n →
      get_latest_tag_version tags p = n) := by
  refine ⟨fun p => rfl, ?_, ?_, ?_⟩
  · intro tags p t hlast hf
    rcases hf with hf | hf <;> simp only [get_latest_tag_version, hlast, hf]
  · intro tags p t hlast hf
    simp only [get_latest_tag_version, hlast, hf]
    rfl
  · intro tags p t v n hlast hf hparse
    simp only [get_latest_tag_version, hlast, hf, Option.getD_some, hparse]

theorem C2_latest_tag_version_witness :
    get_latest_tag_version [] "p" = 0 ∧
    get_latest_tag_version [⟨"t1", fun _ => SchemaFetch.missing⟩] "p" = 0 ∧
    get_latest_tag_version [⟨"t1", fun _ => SchemaFetch.parsed none⟩] "p" = 0 ∧
    get_latest_tag_version [⟨"t1", fun _ => SchemaFetch.parsed (some "revid42")⟩] "p" = 42 :=
  ⟨C2_latest_tag_version.1 "p",
    C2_latest_tag_version.2.1 [⟨"t1", fun _ => SchemaFetch.missing⟩] "p"
      ⟨"t1", fun _ => SchemaFetch.missing⟩ rfl (Or.inl rfl),
    C2_latest_tag_version.2.2.1 [⟨"t1", fun _ => SchemaFetch.parsed none⟩] "p"
      ⟨"t1", fun _ => SchemaFetch.parsed none⟩ rfl rfl,
    C2_latest_tag_version.2.2.2 [⟨"t1", fun _ => SchemaFetch.parsed (some "revid42")⟩] "p"
      ⟨"t1", fun _ => SchemaFetch.parsed (some "revid42")⟩ "revid42" 42 rfl rfl (by decide)⟩

/-! ### Claim C5 -/

/-- Claim C5 (confirmed): outside dry-run, for modified tracked .json files
whose two revisions both parse, process_changed_files checks out exactly
those items for which the contents with the version field removed are equal
and the removed version values differ; every other item is left as it is.
The first conjunct characterises the whole loop, the second states the
if-and-only-if for a single modified tracked .json file. -/
theorem C5_version_only_revert :
    (∀ items : List DiffItem,
      (∀ i ∈ items, relevantItem i = true → isOkE (readDocs i) = true) →
      process_changed_files items false = (Ev.gitAddU :: items.filterMap chkFn, none)) ∧
    (∀ (i : DiffItem) (w h : JDoc), relevantItem i = true → readDocs i = Except.ok (w, h) →
      (Ev.gitCheckout (repoFilePath i.a_path) ∈ (process_changed_files [i] false).1 ↔
        (w.rest = h.rest ∧ w.version ≠ h.version))) := by
  constructor
  · intro items h
    unfold process_changed_files
    rw [pcfLoop_ok items h]
  · intro i w h hrel hdocs
    have hok : ∀ j ∈ [i], relevantItem j = true → isOkE (readDocs j) = true := by
      intro j hj _
      rw [List.mem_singleton] at hj
      subst hj
      rw [hdocs]
      rfl
    unfold process_changed_files
    rw [pcfLoop_ok [i] hok]
    by_cases hv : is_version_only_change w h = true
    · have hvp : w.rest = h.rest ∧ w.version ≠ h.version := by
        have := hv
        unfold is_version_only_change at this
        simp only [Bool.and_eq_true, beq_iff_eq, bne_iff_ne, ne_eq] at this
        exact ⟨this.1, this.2⟩
      simp [List.filterMap_cons, chkFn, hrel, hdocs, hv, hvp]
    · have hvp : ¬(w.rest = h.rest ∧ w.version ≠ h.version) := by
        intro hc
        apply hv
        unfold is_version_only_change
        simp only [Bool.and_eq_true, beq_iff_eq, bne_iff_ne, ne_eq]
        exact ⟨hc.1, hc.2⟩
      simp [List.filterMap_cons, chkFn, hrel, hdocs, hv, hvp]

theorem C5_version_only_revert_witness :
    process_changed_files
        [⟨"a.json", "M", Except.ok ⟨some "revid2", [("k", "1")]⟩,
          Except.ok ⟨some "revid1", [("k", "1")]⟩⟩] false =
      (Ev.gitAddU :: [⟨"a.json", "M", Except.ok ⟨some "revid2", [("k", "1")]⟩,
          Except.ok (⟨some "revid1", [("k", "1")]⟩ : JDoc)⟩].filterMap chkFn, none) ∧
    (Ev.gitCheckout (repoFilePath "a.json") ∈
        (process_changed_files
          [⟨"a.json", "M", Except.ok ⟨some "revid2", [("k", "1")]⟩,
            Except.ok ⟨some "revid1", [("k", "1")]⟩⟩] false).1 ↔
      (([("k", "1")] : List (String × String)) = [("k", "1")] ∧
        (some "revid2" : Option String) ≠ some "revid1")) :=
  ⟨C5_version_only_revert.1 _ (by decide),
    C5_version_only_revert.2
      ⟨"a.json", "M", Except.ok ⟨some "revid2", [("k", "1")]⟩,
        Except.ok ⟨some "revid1", [("k", "1")]⟩⟩
      ⟨some "revid2", [("k", "1")]⟩ ⟨some "revid1", [("k", "1")]⟩ (by decide) rfl⟩

/-! ### Claim C6 -/

/-- The run used to refute claim C6: one eligible file outside dry-run, with
one modified tracked .json file whose working tree content fails to parse. -/
def envC6 : DescEnv :=
  { listing := ["a_d_t_revid102_r.csv"], B := 1, dry := false,
    convOk := fun _ => true, valOk := fun _ => true,
    pathExists := fun _ => false,
    diffItems := [⟨"a.json", "M", Except.error (), Except.ok ⟨some "revid1", []⟩⟩],
    protocol := "p" }

/-- Claim C6 (corrected, counterexample): the claim says an unparseable
changed file is logged, left as-is and the run continues with no exception.
In this concrete run the reconciler hits a file whose working tree content
does not parse and the run ends with an unhandled exception. -/
theorem C6_parse_failure_counterexample :
    (mainDesc envC6).2 = Except.error PyErr.jsonError := by decide

/-- Claim C6 (amended): a modified tracked .json file whose working tree or
HEAD content fails to parse raises an unhandled exception out of
process_changed_files, aborting the run; the file is left as it is only
because the run stops. -/
theorem C6_parse_failure_amended :
    ∀ (pre post : List DiffItem) (bad : DiffItem) (dry : Bool),
      (∀ i ∈ pre, relevantItem i = true → isOkE (readDocs i) = true) →
      relevantItem bad = true → isOkE (readDocs bad) = false →
      (process_changed_files (pre ++ bad :: post) dry).2 = some PyErr.jsonError := by
  intro pre post bad dry hpre hrel hbad
  have key : ∀ l : List DiffItem,
      (∀ i ∈ l, relevantItem i = true → isOkE (readDocs i) = true) →
      (pcfLoop (l ++ bad :: post) dry).2 = some PyErr.jsonError := by
    intro l
    induction l with
    | nil =>
      intro _
      rw [List.nil_append]
      unfold pcfLoop
      rw [readDocs_error_of_not_ok hbad]
      simp [hrel]
    | cons i rest ih =>
      intro hl
      have hi := hl i (List.mem_cons_self i rest)
      have hrest := ih fun j hj => hl j (List.mem_cons_of_mem i hj)
      rw [List.cons_append]
      unfold pcfLoop
      by_cases hreli : relevantItem i = true
      · cases hdocs : readDocs i with
        | error e =>
          have := hi hreli
          rw [hdocs] at this
          simp [isOkE] at this
        | ok wh =>
          cases wh with
          | mk w hd =>
            by_cases hv : is_version_only_change w hd = true
            · cases hdry : dry
              · simp only [hreli, if_true, hdocs, hv, if_false, Bool.false_eq_true]
                rw [hdry] at hrest
                simpa using hrest
              · simp only [hreli, if_true, hdocs, hv]
                rw [hdry] at hrest
                simpa using hrest
            · simp only [hreli, if_true, hdocs]
              rw [if_neg hv]
              exact hrest
      · have hrel' : relevantItem i = false := by
          cases hb : relevantItem i
          · rfl
          · exact absurd hb hreli
        simp only [hrel', Bool.false_eq_true, if_false]
        exact hrest
  unfold process_changed_files
  exact key pre hpre

theorem C6_parse_failure_amended_witness :
    (process_changed_files
        ([] ++ (⟨"a.json", "M", Except.error (), Except.ok ⟨some "revid1", []⟩⟩ : DiffItem)
          :: []) false).2 = some PyErr.jsonError :=
  C6_parse_failure_amended [] []
    ⟨"a.json", "M", Except.error (), Except.ok ⟨some "revid1", []⟩⟩ false
    (by intro i hi; cases hi) (by decide) (by decide)

/-! ### Event shape lemmas for the descending run -/

theorem pcfLoop_shape (items : List DiffItem) (dry : Bool) :
    ∀ e ∈ (pcfLoop items dry).1, ∃ p, e = Ev.gitCheckout p := by
  induction items with
  | nil => intro e he; cases he
  | cons i rest ih =>
    intro e he
    unfold pcfLoop at he
    by_cases hrel : relevantItem i = true
    · rw [if_pos hrel] at he
      split at he
      · cases he
      · rename_i w h heq
        by_cases hv : is_version_only_change w h = true
        · rw [if_pos hv] at he
          by_cases hdry : dry = true
          · rw [if_pos hdry] at he; exact ih e he
          · rw [if_neg hdry] at he
            rcases List.mem_cons.mp he with h1 | h2
            · exact ⟨_, h1⟩
            · exact ih e h2
        · rw [if_neg hv] at he; exact ih e he
    · rw [if_neg hrel] at he; exact ih e he

theorem pcfLoop_dry_nil (items : List DiffItem) : (pcfLoop items true).1 = [] := by
  induction items with
  | nil => rfl
  | cons i rest ih =>
    unfold pcfLoop
    by_cases hrel : relevantItem i = true
    · rw [if_pos hrel]
      split
      · rfl
      · rename_i w h heq
        by_cases hv : is_version_only_change w h = true
        · rw [if_pos hv, if_pos rfl]; exact ih
        · rw [if_neg hv]; exact ih
    · rw [if_neg hrel]; exact ih

theorem pcf_shape (items : List DiffItem) (dry : Bool) :
    ∀ e ∈ (process_changed_files items dry).1,
      e = Ev.gitAddU ∨ ∃ p, e = Ev.gitCheckout p := by
  intro e he
  unfold process_changed_files at he
  rcases List.mem_cons.mp he with h1 | h2
  · exact Or.inl h1
  · exact Or.inr (pcfLoop_shape items dry e h2)

theorem pcf_dry_trace (items : List DiffItem) :
    (process_changed_files items true).1 = [Ev.gitAddU] := by
  unfold process_changed_files
  rw [pcfLoop_dry_nil]

theorem update_repo_dry (o : String) (fs : List String) (pe : String → Bool) :
    update_repo o fs true pe = [] := by
  unfold update_repo
  induction fs with
  | nil => rfl
  | cons f rest ih => simpa using ih

theorem mem_update_repo {o : String} {fs : List String} {dry : Bool}
    {pe : String → Bool} {e : Ev} (he : e ∈ update_repo o fs dry pe) :
    (∃ d, e = Ev.rmtree d) ∨ ∃ s d, e = Ev.moveDir s d := by
  unfold update_repo at he
  rw [List.mem_flatten] at he
  obtain ⟨l, hl, hel⟩ := he
  rw [List.mem_map] at hl
  obtain ⟨folder, _, rfl⟩ := hl
  by_cases hd : dry = true
  · rw [if_pos hd] at hel; cases hel
  · rw [if_neg hd] at hel
    rcases List.mem_append.mp hel with h1 | h2
    · by_cases hp : pe (destPath folder) = true
      · rw [if_pos hp, List.mem_singleton] at h1
        exact Or.inl ⟨_, h1⟩
      · rw [if_neg hp] at h1; cases h1
    · rw [List.mem_singleton] at h2
      exact Or.inr ⟨_, _, h2⟩

theorem mem_commit_and_tag {m tn : String} {rv : Int} {fs : List String}
    {dry : Bool} {pe : String → Bool} {e : Ev}
    (he : e ∈ commit_and_tag m tn rv fs dry pe) :
    (∃ p, e = Ev.gitAdd p) ∨
      (dry = false ∧ (e = Ev.gitCommit m ∨ e = Ev.createTag tn rv ∨
        e = Ev.pushTag tn ∨ e = Ev.pushBranch)) := by
  unfold commit_and_tag at he
  rcases List.mem_append.mp he with h1 | h2
  · rw [List.mem_filterMap] at h1
    obtain ⟨folder, _, hsome⟩ := h1
    by_cases hp : pe (destPath folder) = true
    · rw [if_pos hp, Option.some_inj] at hsome
      exact Or.inl ⟨_, hsome.symm⟩
    · rw [if_neg hp] at hsome; cases hsome
  · by_cases hd : dry = true
    · rw [if_pos hd] at h2; cases h2
    · rw [if_neg hd] at h2
      have hd' : dry = false := by
        cases dry
        · rfl
        · exact absurd rfl hd
      refine Or.inr ⟨hd', ?_⟩
      simpa using h2

theorem createdTags_append (a b : List Ev) :
    createdTags (a ++ b) = createdTags a ++ createdTags b :=
  List.filterMap_append a b _

theorem createdTags_nil_of_shape {evs : List Ev}
    (h : ∀ e ∈ evs, ∀ n r, e ≠ Ev.createTag n r) : createdTags evs = [] := by
  unfold createdTags
  rw [List.filterMap_eq_nil_iff]
  intro e he
  cases e <;> first | rfl | exact absurd rfl (h _ he _ _)

theorem createdTags_pcf (items : List DiffItem) (dry : Bool) :
    createdTags (process_changed_files items dry).1 = [] := by
  apply createdTags_nil_of_shape
  intro e he n r
  rcases pcf_shape items dry e he with h1 | ⟨p, h2⟩
  · rw [h1]; intro hc; cases hc
  · rw [h2]; intro hc; cases hc

theorem createdTags_update_repo (o : String) (fs : List String) (dry : Bool)
    (pe : String → Bool) : createdTags (update_repo o fs dry pe) = [] := by
  apply createdTags_nil_of_shape
  intro e he n r
  rcases mem_update_repo he with ⟨d, h1⟩ | ⟨s, d, h2⟩
  · rw [h1]; intro hc; cases hc
  · rw [h2]; intro hc; cases hc

theorem createdTags_commit_and_tag_dry (m tn : String) (rv : Int) (fs : List String)
    (pe : String → Bool) :
    createdTags (commit_and_tag m tn rv fs true pe) = [] := by
  apply createdTags_nil_of_shape
  intro e he n r
  rcases mem_commit_and_tag he with ⟨p, h1⟩ | ⟨hd, _⟩
  · rw [h1]; intro hc; cases hc
  · cases hd

theorem createdTags_commit_and_tag (m tn : String) (rv : Int) (fs : List String)
    (pe : String → Bool) :
    createdTags (commit_and_tag m tn rv fs false pe) = [(tn, rv)] := by
  unfold commit_and_tag
  rw [if_neg (by simp : ¬(false = true))]
  rw [createdTags_append]
  have h1 : createdTags (fs.filterMap fun folder =>
      if pe (destPath folder) = true then some (Ev.gitAdd (destPath folder)) else none) = [] := by
    apply createdTags_nil_of_shape
    intro e he n r
    rw [List.mem_filterMap] at he
    obtain ⟨folder, _, hsome⟩ := he
    by_cases hp : pe (destPath folder) = true
    · rw [if_pos hp, Option.some_inj] at hsome
      rw [← hsome]; intro hc; cases hc
    · rw [if_neg hp] at hsome; cases hsome
  rw [h1]
  rfl

theorem procFile_dry_shape {env : DescEnv} (hdry : env.dry = true) (f dt : String) (rv : Int) :
    ∀ e ∈ (procFile env f dt rv).1, e = Ev.gitAddU ∨ ∃ p, e = Ev.gitAdd p := by
  intro e he
  unfold procFile at he
  rw [hdry, if_pos rfl] at he
  split at he
  · rw [pcf_dry_trace] at he
    rw [List.mem_singleton] at he
    exact Or.inl he
  · rcases List.mem_append.mp he with h1 | h2
    · rw [pcf_dry_trace, List.mem_singleton] at h1
      exact Or.inl h1
    · rcases mem_commit_and_tag h2 with ⟨p, hp⟩ | ⟨hfalse, _⟩
      · exact Or.inr ⟨p, hp⟩
      · cases hfalse

theorem descStep_dry_shape {env : DescEnv} (hdry : env.dry = true) (f : String) :
    ∀ e ∈ (descStep env f).1, e = Ev.gitAddU ∨ ∃ p, e = Ev.gitAdd p := by
  intro e he
  unfold descStep at he
  split at he
  · cases he
  · split at he
    · split at he
      · cases he
      · split at he
        · split at he
          · exact procFile_dry_shape hdry f _ _ e he
          · cases he
        · split at he
          · split at he
            · exact procFile_dry_shape hdry f _ _ e he
            · cases he
          · cases he
    · cases he

theorem descLoop_dry_shape {env : DescEnv} (hdry : env.dry = true) :
    ∀ l, ∀ e ∈ (descLoop env l).1, e = Ev.gitAddU ∨ ∃ p, e = Ev.gitAdd p := by
  intro l
  induction l with
  | nil => intro e he; cases he
  | cons f rest ih =>
    intro e he
    unfold descLoop at he
    split at he
    · rcases List.mem_append.mp he with h1 | h2
      · exact descStep_dry_shape hdry f e h1
      · exact ih e h2
    · exact descStep_dry_shape hdry f e he
    · exact descStep_dry_shape hdry f e he
    · exact descStep_dry_shape hdry f e he

theorem convert_files_trace_nil (files : List String) (B : Int) (dry : Bool) :
    (convert_files files B dry).2 = [] := by
  induction files with
  | nil => rfl
  | cons f rest ih =>
    unfold convert_files
    split
    · split
      · rfl
      · split
        · split
          · exact ih
          · rfl
        · exact ih
    · rfl

theorem mainAsc_trace_nil (env : AscEnv) : (mainAsc env).2 = [] := by
  unfold mainAsc
  split
  · rfl
  · split
    · rfl
    · split
      · rfl
      · split
        · rfl
        · exact convert_files_trace_nil _ _ _

/-! ### Claim C7 -/

/-- The dry-run used to refute claim C7: one eligible file in dry-run mode in
the descending variant. -/
def envC7 : DescEnv :=
  { listing := ["a_d_t_revid102_r.csv"], B := 50, dry := true,
    convOk := fun _ => true, valOk := fun _ => true,
    pathExists := fun _ => false, diffItems := [], protocol := "p" }

/-- Claim C7 (corrected, counterexample): the claim says a dry-run performs
no version-control write, staging included. In this concrete dry-run of the
descending variant the run still performs the index staging operation
repo.git.add(update=True) coming from process_changed_files. -/
theorem C7_dry_run_counterexample :
    envC7.dry = true ∧ (mainDesc envC7).1 = [Ev.gitAddU] := by
  constructor
  · rfl
  · decide

/-- Claim C7 (amended): a dry-run performs no config write, no subprocess,
no directory move, no commit, no tag creation, no checkout and no push; the
ascending variant emits no effect at all, while the descending variant still
performs staging (the index update of the reconciler and the git add of the
output folders in the tagger) even in dry-run. -/
theorem C7_dry_run_amended :
    (∀ envA : AscEnv, (mainAsc envA).2 = []) ∧
    (∀ env : DescEnv, env.dry = true →
      ∀ e ∈ (mainDesc env).1, e = Ev.gitAddU ∨ ∃ p, e = Ev.gitAdd p) := by
  constructor
  · exact mainAsc_trace_nil
  · intro env hdry e he
    exact descLoop_dry_shape hdry (sortedFilenames env) e he

theorem C7_dry_run_amended_witness :
    (mainAsc ⟨true, ["a_d_t_revid102_r.csv"], 50, true⟩).2 = [] ∧
    (Ev.gitAddU = Ev.gitAddU ∨ ∃ p, Ev.gitAddU = Ev.gitAdd p) :=
  ⟨C7_dry_run_amended.1 ⟨true, ["a_d_t_revid102_r.csv"], 50, true⟩,
    C7_dry_run_amended.2 envC7 rfl Ev.gitAddU (by decide)⟩

/-! ### Claim C3 -/

theorem createdTags_procFile {env : DescEnv} {f dt : String} {rv : Int} {n : String} {r : Int}
    (h : (n, r) ∈ createdTags (procFile env f dt rv).1) : r = rv := by
  unfold procFile at h
  by_cases hd : env.dry = true
  · rw [hd, if_pos rfl] at h
    split at h
    · rw [createdTags_pcf] at h
      cases h
    · rw [createdTags_append, createdTags_pcf, createdTags_commit_and_tag_dry] at h
      cases h
  · rw [if_neg hd] at h
    split at h
    · simp [createdTags] at h
    · split at h
      · simp [createdTags] at h
      · split at h
        · rw [createdTags_append, createdTags_append, createdTags_update_repo,
            createdTags_pcf] at h
          simp [createdTags] at h
        · rw [createdTags_append, createdTags_append, createdTags_append,
            createdTags_update_repo, createdTags_pcf,
            createdTags_commit_and_tag] at h
          simp [createdTags] at h
          exact h.2

theorem createdTags_descStep {env : DescEnv} {f : String} {n : String} {r : Int}
    (h : (n, r) ∈ createdTags (descStep env f).1) : env.B < r ∧ 101 ≤ r := by
  unfold descStep at h
  split at h
  · simp [createdTags] at h
  · split at h
    · split at h
      · simp [createdTags] at h
      · rename_i rv hparse
        split at h
        · rename_i hB0
          split at h
          · rename_i h101
            have hr := createdTags_procFile h
            have hB : env.B = 0 := by simpa using hB0
            subst hr
            omega
          · simp [createdTags] at h
        · split at h
          · rename_i hgt
            split at h
            · rename_i h101
              have hr := createdTags_procFile h
              subst hr
              omega
            · simp [createdTags] at h
          · simp [createdTags] at h
    · simp [createdTags] at h

theorem createdTags_descLoop {env : DescEnv} {n : String} {r : Int} :
    ∀ l, (n, r) ∈ createdTags (descLoop env l).1 → env.B < r ∧ 101 ≤ r := by
  intro l
  induction l with
  | nil => intro h; simp [descLoop, createdTags] at h
  | cons f rest ih =>
    intro h
    unfold descLoop at h
    split at h
    · rw [createdTags_append] at h
      rcases List.mem_append.mp h with h1 | h2
      · exact createdTags_descStep h1
      · exact ih h2
    · exact createdTags_descStep h
    · exact createdTags_descStep h
    · exact createdTags_descStep h

/-- The run used to refute claim C3: baseline 101, two eligible files whose
descending lexicographic filename order disagrees with their revision
order. -/
def envC3 : DescEnv :=
  { listing := ["b_e_t_revid200_r.csv", "a_d_t_revid105_r.csv"], B := 101, dry := false,
    convOk := fun _ => true, valOk := fun _ => true,
    pathExists := fun _ => false, diffItems := [], protocol := "p" }

/-- Claim C3 (corrected, counterexample): the claim says a run never creates
a tag whose revision is lower than that of a tag created earlier in the same
run. In this concrete descending run the file with revision 200 sorts first
lexicographically, so the run creates the tag for revision 200 and then the
tag for revision 105, with no exception. -/
theorem C3_tag_monotonicity_counterexample :
    createdTags (mainDesc envC3).1 = [("e.t", 200), ("d.t", 105)] ∧
    (105 : Int) < 200 ∧ (mainDesc envC3).2 = Except.ok () :=
  ⟨by decide, by decide, by decide⟩

/-- Claim C3 (amended): every tag created by a run of the descending variant
carries a revision strictly greater than the baseline read at the start of
the run and at least 101; however, tags created within one run need not be in
nondecreasing revision order, because the iteration order is lexicographic by
filename, not by revision. -/
theorem C3_tag_monotonicity_amended :
    ∀ (env : DescEnv) (n : String) (r : Int),
      (n, r) ∈ createdTags (mainDesc env).1 → env.B < r ∧ 101 ≤ r :=
  fun env _ _ h => createdTags_descLoop (sortedFilenames env) h

theorem C3_tag_monotonicity_amended_witness :
    envC3.B < 200 ∧ 101 ≤ (200 : Int) :=
  C3_tag_monotonicity_amended envC3 "e.t" 200 (by decide)

/-! ### Claim C4 -/

theorem descStep_convFail {env : DescEnv} {f : String} {rv : Int}
    (hdry : env.dry = false) (hcsv : endsWithS f ".csv" = true)
    (hlen : 3 ≤ (splitParts f).length) (hparse : parseRevE f = Except.ok rv)
    (hB : env.B = 0 ∨ rv > env.B) (h101 : 101 ≤ rv)
    (hconv : env.convOk f = false) :
    descStep env f =
      ([Ev.writeYaml rv, Ev.runConvert (input_dir ++ "/" ++ f)], StepRes.ret) := by
  obtain ⟨p0, p1, p2, tail, hsp⟩ : ∃ p0 p1 p2 tail, splitParts f = p0 :: p1 :: p2 :: tail := by
    rcases hsp : splitParts f with _ | ⟨a, _ | ⟨b, _ | ⟨c, t⟩⟩⟩ <;>
      first
        | exact ⟨a, b, c, t, rfl⟩
        | (rw [hsp] at hlen; simp at hlen)
  have hproc : procFile env f (p1 ++ "_" ++ p2) rv =
      ([Ev.writeYaml rv, Ev.runConvert (input_dir ++ "/" ++ f)], StepRes.ret) := by
    unfold procFile
    rw [hdry]
    simp [hconv]
  unfold descStep
  by_cases hB0 : env.B = 0
  · simp [hcsv, hsp, hparse, hB0, h101, hproc]
  · have hgt : rv > env.B := hB.resolve_left hB0
    simp [hcsv, hsp, hparse, beq_iff_eq, hB0, hgt, h101, hproc]

theorem descStep_valFail {env : DescEnv} {f : String} {rv : Int}
    (hdry : env.dry = false) (hcsv : endsWithS f ".csv" = true)
    (hlen : 3 ≤ (splitParts f).length) (hparse : parseRevE f = Except.ok rv)
    (hB : env.B = 0 ∨ rv > env.B) (h101 : 101 ≤ rv)
    (hconv : env.convOk f = true) (hval : env.valOk f = false) :
    descStep env f =
      ([Ev.writeYaml rv, Ev.runConvert (input_dir ++ "/" ++ f),
        Ev.runValidate (outputFolderOf env.protocol)], StepRes.ret) := by
  obtain ⟨p0, p1, p2, tail, hsp⟩ : ∃ p0 p1 p2 tail, splitParts f = p0 :: p1 :: p2 :: tail := by
    rcases hsp : splitParts f with _ | ⟨a, _ | ⟨b, _ | ⟨c, t⟩⟩⟩ <;>
      first
        | exact ⟨a, b, c, t, rfl⟩
        | (rw [hsp] at hlen; simp at hlen)
  have hproc : procFile env f (p1 ++ "_" ++ p2) rv =
      ([Ev.writeYaml rv, Ev.runConvert (input_dir ++ "/" ++ f),
        Ev.runValidate (outputFolderOf env.protocol)], StepRes.ret) := by
    unfold procFile
    rw [hdry]
    simp [hconv, hval]
  unfold descStep
  by_cases hB0 : env.B = 0
  · simp [hcsv, hsp, hparse, hB0, h101, hproc]
  · have hgt : rv > env.B := hB.resolve_left hB0
    simp [hcsv, hsp, hparse, beq_iff_eq, hB0, hgt, h101, hproc]

theorem descLoop_cons (env : DescEnv) (f : String) (rest : List String) :
    descLoop env (f :: rest) =
      match (descStep env f).2 with
      | StepRes.next =>
        ((descStep env f).1 ++ (descLoop env rest).1, (descLoop env rest).2)
      | StepRes.stop => ((descStep env f).1, Except.ok ())
      | StepRes.ret => ((descStep env f).1, Except.ok ())
      | StepRes.exn e => ((descStep env f).1, Except.error e) := rfl

theorem descLoop_append_next (env : DescEnv) :
    ∀ (pre l : List String),
      (∀ g ∈ pre, (descStep env g).2 = StepRes.next) →
      descLoop env (pre ++ l) =
        ((pre.map fun g => (descStep env g).1).flatten ++ (descLoop env l).1,
          (descLoop env l).2) := by
  intro pre
  induction pre with
  | nil => intro l _; simp
  | cons g rest ih =>
    intro l h
    have hg := h g (List.mem_cons_self g rest)
    have hrest := ih l fun j hj => h j (List.mem_cons_of_mem g hj)
    rw [List.cons_append, descLoop_cons]
    split
    · rw [hrest]
      simp [List.map_cons, List.flatten_cons, List.append_assoc]
    · rename_i heq; rw [hg] at heq; cases heq
    · rename_i heq; rw [hg] at heq; cases heq
    · rename_i heq; rw [hg] at heq; cases heq

/-- Claim C4 (confirmed): when the file reached after some successfully
handled predecessors fails its conversion or validation subprocess, the run
returns immediately: the whole trace is the predecessors trace followed by
the failing file partial trace, which contains no directory move, no commit
and no tag; in particular nothing after the failing file is processed and
everything committed before it stays in the trace. -/
theorem C4_subprocess_failure_aborts :
    ∀ (env : DescEnv) (pre post : List String) (f : String) (rv : Int),
      env.dry = false →
      sortedFilenames env = pre ++ f :: post →
      (∀ g ∈ pre, (descStep env g).2 = StepRes.next) →
      endsWithS f ".csv" = true →
      3 ≤ (splitParts f).length →
      parseRevE f = Except.ok rv →
      (env.B = 0 ∨ rv > env.B) → 101 ≤ rv →
      (env.convOk f = false ∨ (env.convOk f = true ∧ env.valOk f = false)) →
      mainDesc env =
        ((pre.map fun g => (descStep env g).1).flatten ++ (descStep env f).1,
          Except.ok ()) ∧
      ∀ e ∈ (descStep env f).1,
        (∀ s d, e ≠ Ev.moveDir s d) ∧ (∀ m, e ≠ Ev.gitCommit m) ∧
        ∀ tn tr, e ≠ Ev.createTag tn tr := by
  intro env pre post f rv hdry hsort hpre hcsv hlen hparse hB h101 hfail
  have hloop := descLoop_append_next env pre (f :: post) hpre
  rcases hfail with hconv | ⟨hconv, hval⟩
  · have hstep := descStep_convFail hdry hcsv hlen hparse hB h101 hconv
    have hfpost : descLoop env (f :: post) = ((descStep env f).1, Except.ok ()) := by
      unfold descLoop
      rw [hstep]
    constructor
    · show descLoop env (sortedFilenames env) = _
      rw [hsort, hloop, hfpost]
    · intro e he
      rw [hstep] at he
      simp only [List.mem_cons, List.mem_singleton] at he
      rcases he with rfl | rfl | he
      · exact ⟨fun s d => by simp, fun m => by simp, fun tn tr => by simp⟩
      · exact ⟨fun s d => by simp, fun m => by simp, fun tn tr => by simp⟩
      · cases he
  · have hstep := descStep_valFail hdry hcsv hlen hparse hB h101 hconv hval
    have hfpost : descLoop env (f :: post) = ((descStep env f).1, Except.ok ()) := by
      unfold descLoop
      rw [hstep]
    constructor
    · show descLoop env (sortedFilenames env) = _
      rw [hsort, hloop, hfpost]
    · intro e he
      rw [hstep] at he
      simp only [List.mem_cons, List.mem_singleton] at he
      rcases he with rfl | rfl | rfl | he
      · exact ⟨fun s d => by simp, fun m => by simp, fun tn tr => by simp⟩
      · exact ⟨fun s d => by simp, fun m => by simp, fun tn tr => by simp⟩
      · exact ⟨fun s d => by simp, fun m => by simp, fun tn tr => by simp⟩
      · cases he

/-- The run used to witness claim C4: one eligible file whose conversion
subprocess fails. -/
def envC4 : DescEnv :=
  { listing := ["a_d_t_revid102_r.csv"], B := 1, dry := false,
    convOk := fun _ => false, valOk := fun _ => true,
    pathExists := fun _ => false, diffItems := [], protocol := "p" }

theorem C4_subprocess_failure_aborts_witness :
    mainDesc envC4 =
      ((([] : List String).map fun g => (descStep envC4 g).1).flatten ++
        (descStep envC4 "a_d_t_revid102_r.csv").1, Except.ok ()) ∧
      ∀ e ∈ (descStep envC4 "a_d_t_revid102_r.csv").1,
        (∀ s d, e ≠ Ev.moveDir s d) ∧ (∀ m, e ≠ Ev.gitCommit m) ∧
        ∀ tn tr, e ≠ Ev.createTag tn tr :=
  C4_subprocess_failure_aborts envC4 [] [] "a_d_t_revid102_r.csv" 102 rfl (by decide)
    (by decide) (by decide) (by decide) (by decide) (Or.inr (by decide)) (by decide)
    (Or.inl rfl)

/-! ### Ascending variant lemmas -/

theorem exists_three_of_len {f : String} (hlen : 3 ≤ (splitParts f).length) :
    ∃ p0 p1 p2 tail, splitParts f = p0 :: p1 :: p2 :: tail := by
  rcases hsp : splitParts f with _ | ⟨a, _ | ⟨b, _ | ⟨c, t⟩⟩⟩ <;>
    first
      | exact ⟨a, b, c, t, rfl⟩
      | (rw [hsp] at hlen; simp at hlen)

theorem ascFilterM_ok (csvs : List String) (B : Int)
    (h : ∀ f ∈ csvs, isOkE (parseRevE f) = true) :
    ascFilterM csvs B = Except.ok (csvs.filter fun f => decide (B < revD f)) := by
  induction csvs with
  | nil => rfl
  | cons f rest ih =>
    have hf := h f (List.mem_cons_self f rest)
    have hrest := ih fun j hj => h j (List.mem_cons_of_mem f hj)
    cases hp : parseRevE f with
    | error e => rw [hp] at hf; simp [isOkE] at hf
    | ok rv =>
      have hrv : revD f = rv := revD_eq_of_parse hp
      unfold ascFilterM
      by_cases hgt : B < rv
      · simp [hp, hrest, List.filter_cons, hrv, hgt]
      · simp [hp, hrest, List.filter_cons, hrv, hgt]

theorem ascFilterM_mem {csvs : List String} {B : Int} {l : List String}
    (h : ascFilterM csvs B = Except.ok l) :
    ∀ f ∈ l, f ∈ csvs ∧ ∃ n, parseRevE f = Except.ok n ∧ n > B := by
  induction csvs generalizing l with
  | nil =>
    unfold ascFilterM at h
    injection h with h
    subst h
    intro f hf
    cases hf
  | cons g rest ih =>
    unfold ascFilterM at h
    split at h
    · cases h
    · rename_i rv heq
      split at h
      · cases h
      · rename_i l' heq2
        injection h with h
        subst h
        intro f hf
        by_cases hgt : rv > B
        · rw [if_pos hgt] at hf
          rcases List.mem_cons.mp hf with rfl | hf'
          · exact ⟨List.mem_cons_self _ _, rv, heq, hgt⟩
          · obtain ⟨hmem, n, hn, hnB⟩ := ih heq2 f hf'
            exact ⟨List.mem_cons_of_mem g hmem, n, hn, hnB⟩
        · rw [if_neg hgt] at hf
          obtain ⟨hmem, n, hn, hnB⟩ := ih heq2 f hf
          exact ⟨List.mem_cons_of_mem g hmem, n, hn, hnB⟩

theorem ascFilterM_err {csvs : List String} {B : Int} {f : String}
    (hf : f ∈ csvs) (hbad : isOkE (parseRevE f) = false) :
    ∃ e, ascFilterM csvs B = Except.error e := by
  induction csvs with
  | nil => cases hf
  | cons g rest ih =>
    rcases List.mem_cons.mp hf with rfl | hf'
    · cases hp : parseRevE f with
      | error e => exact ⟨e, by unfold ascFilterM; simp [hp]⟩
      | ok rv => rw [hp] at hbad; simp [isOkE] at hbad
    · cases hp : parseRevE g with
      | error e => exact ⟨e, by unfold ascFilterM; simp [hp]⟩
      | ok rv =>
        obtain ⟨e, he⟩ := ih hf'
        exact ⟨e, by unfold ascFilterM; simp [hp, he]⟩

theorem ascSelected_ok (csvs : List String) (B : Int)
    (h : ∀ f ∈ csvs, isOkE (parseRevE f) = true) :
    ascSelected csvs B =
      Except.ok (List.insertionSort (fun a b => revD a ≤ revD b)
        (csvs.filter fun f => decide (B < revD f))) := by
  unfold ascSelected
  rw [ascFilterM_ok csvs B h]

theorem ascSelected_mem {csvs : List String} {B : Int} {files : List String} {f : String}
    (h : ascSelected csvs B = Except.ok files) (hf : f ∈ files) :
    f ∈ csvs ∧ ∃ n, parseRevE f = Except.ok n ∧ n > B := by
  unfold ascSelected at h
  split at h
  · cases h
  · rename_i l heq
    injection h with h
    subst h
    rw [List.mem_insertionSort] at hf
    exact ascFilterM_mem heq f hf

theorem convert_files_dry {files : List String} {B : Int}
    (h : ∀ f ∈ files, 3 ≤ (splitParts f).length ∧ isOkE (parseRevE f) = true) :
    convert_files files B true = (Except.ok 0, []) := by
  induction files with
  | nil => rfl
  | cons f rest ih =>
    obtain ⟨hlen, hok⟩ := h f (List.mem_cons_self f rest)
    have ihr := ih fun j hj => h j (List.mem_cons_of_mem f hj)
    obtain ⟨p0, p1, p2, tail, hsp⟩ := exists_three_of_len hlen
    cases hp : parseRevE f with
    | error e => rw [hp] at hok; simp [isOkE] at hok
    | ok rv =>
      unfold convert_files
      by_cases hgt : rv > B
      · simp [hsp, hp, hgt, ihr]
      · simp [hsp, hp, hgt, ihr]

theorem convert_files_nameError {f : String} {rest : List String} {B rv : Int}
    (hlen : 3 ≤ (splitParts f).length) (hp : parseRevE f = Except.ok rv)
    (hgt : rv > B) :
    convert_files (f :: rest) B false = (Except.error PyErr.nameError, []) := by
  obtain ⟨p0, p1, p2, tail, hsp⟩ := exists_three_of_len hlen
  unfold convert_files
  simp [hsp, hp, hgt]

/-! ### Claim C8 -/

/-- The run used to refute claim C8: the input directory is missing. -/
def envC8 : AscEnv := { inputDirExists := false, listing := [], B := 0, dry := false }

/-- Claim C8 (corrected, counterexample): the claim says the entry point
yields exit status 1 when the input directory is missing. In this run main
returns the value 1, but the \_\_main\_\_ block discards that return value,
so the interpreter exits with status 0. -/
theorem C8_exit_codes_counterexample :
    (mainAsc envC8).1 = Except.ok 1 ∧ entryExit envC8 = 0 :=
  ⟨by decide, by decide⟩

/-- Claim C8 (amended): main returns 1 on a missing input directory or an
empty CSV listing and 0 when there is nothing to do or a dry-run succeeds,
and raises NameError when a file is processed outside dry-run; but the entry
point discards the return value of main, so the process exit status is 0
whenever main returns (including the return-1 cases) and 1 exactly when an
unhandled exception escapes. -/
theorem C8_exit_codes_amended :
    ∀ env : AscEnv,
      (env.inputDirExists = false →
        mainAsc env = (Except.ok 1, []) ∧ entryExit env = 0) ∧
      (env.inputDirExists = true →
        env.listing.filter (fun f => endsWithS f ".csv") = [] →
        mainAsc env = (Except.ok 1, []) ∧ entryExit env = 0) ∧
      (env.inputDirExists = true →
        env.listing.filter (fun f => endsWithS f ".csv") ≠ [] →
        ascSelected (env.listing.filter (fun f => endsWithS f ".csv")) env.B =
          Except.ok [] →
        mainAsc env = (Except.ok 0, []) ∧ entryExit env = 0) ∧
      (∀ files, env.inputDirExists = true → env.dry = true →
        ascSelected (env.listing.filter (fun f => endsWithS f ".csv")) env.B =
          Except.ok files →
        files ≠ [] →
        (∀ f ∈ files, 3 ≤ (splitParts f).length) →
        mainAsc env = (Except.ok 0, []) ∧ entryExit env = 0) ∧
      (∀ f rest, env.inputDirExists = true → env.dry = false →
        ascSelected (env.listing.filter (fun g => endsWithS g ".csv")) env.B =
          Except.ok (f :: rest) →
        3 ≤ (splitParts f).length →
        mainAsc env = (Except.error PyErr.nameError, []) ∧ entryExit env = 1) := by
  intro env
  refine ⟨?_, ?_, ?_, ?_, ?_⟩
  · intro h
    have hmain : mainAsc env = (Except.ok 1, []) := by
      unfold mainAsc
      simp [h]
    exact ⟨hmain, by unfold entryExit; rw [hmain]⟩
  · intro h1 h2
    have hmain : mainAsc env = (Except.ok 1, []) := by
      unfold mainAsc
      simp [h1, h2]
    exact ⟨hmain, by unfold entryExit; rw [hmain]⟩
  · intro h1 h2 hsel
    have hmain : mainAsc env = (Except.ok 0, []) := by
      unfold mainAsc
      simp [h1, h2, hsel]
    exact ⟨hmain, by unfold entryExit; rw [hmain]⟩
  · intro files h1 hdry hsel hne hlen
    have hok : ∀ f ∈ files, 3 ≤ (splitParts f).length ∧ isOkE (parseRevE f) = true := by
      intro f hf
      obtain ⟨_, n, hn, _⟩ := ascSelected_mem hsel hf
      exact ⟨hlen f hf, by rw [hn]; rfl⟩
    have hconv : convert_files files env.B env.dry = (Except.ok 0, []) := by
      rw [hdry]
      exact convert_files_dry hok
    have hmain : mainAsc env = (Except.ok 0, []) := by
      obtain ⟨f0, hf0⟩ : ∃ f0, f0 ∈ files := by
        cases files with
        | nil => exact absurd rfl hne
        | cons a l => exact ⟨a, List.mem_cons_self a l⟩
      obtain ⟨hmem, _⟩ := ascSelected_mem hsel hf0
      rw [List.mem_filter] at hmem
      unfold mainAsc
      simp [h1, hsel, hne, hconv, List.isEmpty_iff]
      exact ⟨f0, hmem.1, hmem.2⟩
    exact ⟨hmain, by unfold entryExit; rw [hmain]⟩
  · intro f rest h1 hdry hsel hlen
    obtain ⟨hmemcsv, rv, hp, hgt⟩ := ascSelected_mem hsel (List.mem_cons_self f rest)
    have hconv : convert_files (f :: rest) env.B env.dry =
        (Except.error PyErr.nameError, []) := by
      rw [hdry]
      exact convert_files_nameError hlen hp hgt
    have hne : env.listing.filter (fun g => endsWithS g ".csv") ≠ [] := by
      intro hc
      rw [hc] at hsel
      unfold ascSelected ascFilterM at hsel
      injection hsel with hsel
      cases hsel
    have hmain : mainAsc env = (Except.error PyErr.nameError, []) := by
      unfold mainAsc
      simp [h1, hsel, hconv, List.isEmpty_iff, hne]
    exact ⟨hmain, by unfold entryExit; rw [hmain]⟩

theorem C8_exit_codes_amended_witness :
    (mainAsc envC8 = (Except.ok 1, []) ∧ entryExit envC8 = 0) ∧
    (mainAsc ⟨true, ["a_d_t_revid102_r.csv"], 1, false⟩ =
        (Except.error PyErr.nameError, []) ∧
      entryExit ⟨true, ["a_d_t_revid102_r.csv"], 1, false⟩ = 1) :=
  ⟨(C8_exit_codes_amended envC8).1 rfl,
    (C8_exit_codes_amended ⟨true, ["a_d_t_revid102_r.csv"], 1, false⟩).2.2.2.2
      "a_d_t_revid102_r.csv" [] rfl rfl (by decide) (by decide)⟩

/-! ### Claim C9 -/

/-- The run used to refute claim C9: one CSV filename with a single
segment. -/
def envC9 : AscEnv := { inputDirExists := true, listing := ["x.csv"], B := 0, dry := false }

/-- Claim C9 (corrected, counterexample): the claim says a malformed
filename produces an explicit reported parse-error outcome of the parsing
step rather than an unhandled crash of the run. In this run the single CSV
name has too few underscore segments and main ends with an unhandled
IndexError escaping the revision parse in the selection comprehension. -/
theorem C9_malformed_filename_counterexample :
    mainAsc envC9 = (Except.error PyErr.indexError, []) := by decide

/-- Claim C9 (amended): a CSV filename with too few underscore segments or a
non-integer revision segment makes the revision parse raise an unhandled
exception (IndexError or ValueError) that ends the run, with no side effect;
no explicit parse-error result is produced. This holds in both variants. -/
theorem C9_malformed_filename_amended :
    (∀ (env : AscEnv) (f : String), env.inputDirExists = true →
      f ∈ env.listing → endsWithS f ".csv" = true → isOkE (parseRevE f) = false →
      (∃ e, (mainAsc env).1 = Except.error e) ∧ (mainAsc env).2 = []) ∧
    (∀ (env : DescEnv) (f : String) (rest : List String),
      sortedFilenames env = f :: rest → endsWithS f ".csv" = true →
      isOkE (parseRevE f) = false →
      ∃ e, (mainDesc env).2 = Except.error e) := by
  constructor
  · intro env f h1 hmem hcsv hbad
    have hfmem : f ∈ env.listing.filter (fun g => endsWithS g ".csv") :=
      List.mem_filter.mpr ⟨hmem, hcsv⟩
    obtain ⟨e, he⟩ := ascFilterM_err (B := env.B) hfmem hbad
    have hsel : ascSelected (env.listing.filter (fun g => endsWithS g ".csv")) env.B =
        Except.error e := by
      unfold ascSelected
      rw [he]
    have hne : env.listing.filter (fun g => endsWithS g ".csv") ≠ [] := by
      intro hc
      rw [hc] at hfmem
      cases hfmem
    have hmain : mainAsc env = (Except.error e, []) := by
      unfold mainAsc
      simp [h1, hsel, List.isEmpty_iff, hne]
    exact ⟨⟨e, by rw [hmain]⟩, by rw [hmain]⟩
  · intro env f rest hsort hcsv hbad
    have hstep : ∃ e, descStep env f = ([], StepRes.exn e) := by
      unfold descStep
      rcases hsp : splitParts f with _ | ⟨a, _ | ⟨b, _ | ⟨c, t⟩⟩⟩
      · exact ⟨PyErr.indexError, by simp [hcsv, hsp]⟩
      · exact ⟨PyErr.indexError, by simp [hcsv, hsp]⟩
      · exact ⟨PyErr.indexError, by simp [hcsv, hsp]⟩
      · cases hp : parseRevE f with
        | ok rv => rw [hp] at hbad; simp [isOkE] at hbad
        | error e => exact ⟨e, by simp [hcsv, hsp, hp]⟩
    obtain ⟨e, he⟩ := hstep
    refine ⟨e, ?_⟩
    show (descLoop env (sortedFilenames env)).2 = _
    rw [hsort, descLoop_cons, he]

theorem C9_malformed_filename_amended_witness :
    ((∃ e, (mainAsc envC9).1 = Except.error e) ∧ (mainAsc envC9).2 = []) ∧
    ∃ e, (mainDesc
      ⟨["x.csv"], 1, false, fun _ => true, fun _ => true, fun _ => false, [], "p"⟩).2 =
        Except.error e :=
  ⟨C9_malformed_filename_amended.1 envC9 "x.csv" rfl (by decide) (by decide) (by decide),
    C9_malformed_filename_amended.2
      ⟨["x.csv"], 1, false, fun _ => true, fun _ => true, fun _ => false, [], "p"⟩
      "x.csv" [] (by decide) (by decide) (by decide)⟩

/-! ### Claim C10 -/

/-- Claim C10 (confirmed): convert_files never emits any effect outside
dry-run, and on the first file above the baseline it raises NameError
(yaml_content and repo are locals of main, not visible in convert_files)
before the config write, any subprocess, and any commit; consequently a
well-formed non-dry run of the ascending variant with at least one eligible
CSV file ends with NameError and an empty trace, so this variant can never
convert, commit or tag outside dry-run. -/
theorem C10_nameerror_unreachable :
    (∀ (files : List String) (B : Int) (dry : Bool),
      (convert_files files B dry).2 = []) ∧
    (∀ (files rest : List String) (f : String) (B rv : Int),
      files = f :: rest → 3 ≤ (splitParts f).length →
      parseRevE f = Except.ok rv → rv > B →
      convert_files files B false = (Except.error PyErr.nameError, [])) ∧
    (∀ env : AscEnv, env.dry = false → env.inputDirExists = true →
      (∀ g ∈ env.listing, endsWithS g ".csv" = true →
        3 ≤ (splitParts g).length ∧ isOkE (parseRevE g) = true) →
      (∃ f ∈ env.listing, endsWithS f ".csv" = true ∧ revD f > env.B) →
      mainAsc env = (Except.error PyErr.nameError, [])) := by
  refine ⟨convert_files_trace_nil, ?_, ?_⟩
  · intro files rest f B rv hfiles hlen hp hgt
    subst hfiles
    exact convert_files_nameError hlen hp hgt
  · intro env hdry h1 hwf hex
    obtain ⟨f, hfmem, hcsv, hgt⟩ := hex
    have hok : ∀ g ∈ env.listing.filter (fun g => endsWithS g ".csv"),
        isOkE (parseRevE g) = true := by
      intro g hg
      rw [List.mem_filter] at hg
      exact (hwf g hg.1 hg.2).2
    have hsel := ascSelected_ok (env.listing.filter (fun g => endsWithS g ".csv")) env.B hok
    cases hs : List.insertionSort (fun a b => revD a ≤ revD b)
        ((env.listing.filter fun g => endsWithS g ".csv").filter
          fun g => decide (env.B < revD g)) with
    | nil =>
      have hfin : f ∈ List.insertionSort (fun a b => revD a ≤ revD b)
          ((env.listing.filter fun g => endsWithS g ".csv").filter
            fun g => decide (env.B < revD g)) := by
        rw [List.mem_insertionSort, List.mem_filter]
        exact ⟨List.mem_filter.mpr ⟨hfmem, hcsv⟩, by simpa using hgt⟩
      rw [hs] at hfin
      cases hfin
    | cons f0 rest0 =>
      rw [hs] at hsel
      obtain ⟨hf0csv, rv0, hp0, hgt0⟩ := ascSelected_mem hsel (List.mem_cons_self f0 rest0)
      rw [List.mem_filter] at hf0csv
      have hlen0 := (hwf f0 hf0csv.1 hf0csv.2).1
      have hconv := @convert_files_nameError f0 rest0 env.B rv0 hlen0 hp0 hgt0
      have hne : env.listing.filter (fun g => endsWithS g ".csv") ≠ [] := by
        intro hc
        have : f ∈ env.listing.filter (fun g => endsWithS g ".csv") :=
          List.mem_filter.mpr ⟨hfmem, hcsv⟩
        rw [hc] at this
        cases this
      unfold mainAsc
      simp [h1, hsel, hdry, hconv, List.isEmpty_iff, hne]

theorem C10_nameerror_unreachable_witness :
    convert_files ["a_d_t_revid102_r.csv"] 1 false = (Except.error PyErr.nameError, []) ∧
    mainAsc ⟨true, ["a_d_t_revid102_r.csv"], 1, false⟩ =
      (Except.error PyErr.nameError, []) :=
  ⟨C10_nameerror_unreachable.2.1 ["a_d_t_revid102_r.csv"] [] "a_d_t_revid102_r.csv" 1 102
      rfl (by decide) (by decide) (by decide),
    C10_nameerror_unreachable.2.2 ⟨true, ["a_d_t_revid102_r.csv"], 1, false⟩ rfl rfl
      (by decide) ⟨"a_d_t_revid102_r.csv", by decide⟩⟩

/-! ### Claim C1 -/

theorem convertedOf_append (a b : List Ev) :
    convertedOf (a ++ b) = convertedOf a ++ convertedOf b :=
  List.filterMap_append a b _

theorem convertedOf_nil_of_shape {evs : List Ev}
    (h : ∀ e ∈ evs, ∀ p, e ≠ Ev.runConvert p) : convertedOf evs = [] := by
  unfold convertedOf
  rw [List.filterMap_eq_nil_iff]
  intro e he
  cases e <;> first | rfl | exact absurd rfl (h _ he _)

theorem convertedOf_pcf (items : List DiffItem) (dry : Bool) :
    convertedOf (process_changed_files items dry).1 = [] := by
  apply convertedOf_nil_of_shape
  intro e he p
  rcases pcf_shape items dry e he with h1 | ⟨q, h2⟩
  · rw [h1]; intro hc; cases hc
  · rw [h2]; intro hc; cases hc

theorem convertedOf_update_repo (o : String) (fs : List String) (dry : Bool)
    (pe : String → Bool) : convertedOf (update_repo o fs dry pe) = [] := by
  apply convertedOf_nil_of_shape
  intro e he p
  rcases mem_update_repo he with ⟨d, h1⟩ | ⟨s, d, h2⟩
  · rw [h1]; intro hc; cases hc
  · rw [h2]; intro hc; cases hc

theorem convertedOf_commit_and_tag (m tn : String) (rv : Int) (fs : List String)
    (dry : Bool) (pe : String → Bool) :
    convertedOf (commit_and_tag m tn rv fs dry pe) = [] := by
  apply convertedOf_nil_of_shape
  intro e he p
  rcases mem_commit_and_tag he with ⟨q, rfl⟩ | ⟨_, rfl | rfl | rfl | rfl⟩ <;>
    (intro hc; cases hc)

theorem convertedOf_nil : convertedOf [] = [] := rfl

theorem convertedOf_writeYaml_cons (r : Int) (evs : List Ev) :
    convertedOf (Ev.writeYaml r :: evs) = convertedOf evs := rfl

theorem convertedOf_runConvert_cons (p : String) (evs : List Ev) :
    convertedOf (Ev.runConvert p :: evs) = p :: convertedOf evs := rfl

theorem convertedOf_runValidate_cons (d : String) (evs : List Ev) :
    convertedOf (Ev.runValidate d :: evs) = convertedOf evs := rfl

theorem procFile_success {env : DescEnv} (f dt : String) (rv : Int)
    (hdry : env.dry = false) (hconv : env.convOk f = true) (hval : env.valOk f = true)
    (hpcf : (process_changed_files env.diffItems false).2 = none) :
    (procFile env f dt rv).2 = StepRes.next ∧
      convertedOf (procFile env f dt rv).1 = [input_dir ++ "/" ++ f] := by
  unfold procFile
  simp only [hdry, Bool.false_eq_true, if_false, hconv, hval, Bool.not_true, hpcf]
  refine ⟨trivial, ?_⟩
  simp [convertedOf_append, convertedOf_pcf, convertedOf_update_repo,
    convertedOf_commit_and_tag, convertedOf_writeYaml_cons, convertedOf_runConvert_cons,
    convertedOf_runValidate_cons, convertedOf_nil]

theorem descLoop_clean_converted (env : DescEnv)
    (hdry : env.dry = false) (hB : env.B ≠ 0)
    (hconv : ∀ f, env.convOk f = true) (hval : ∀ f, env.valOk f = true)
    (hpcf : (process_changed_files env.diffItems false).2 = none) :
    ∀ l : List String,
      (∀ f ∈ l, endsWithS f ".csv" = true →
        3 ≤ (splitParts f).length ∧ isOkE (parseRevE f) = true) →
      convertedOf (descLoop env l).1 =
        ((l.takeWhile fun f => !(endsWithS f ".csv") || decide (env.B < revD f)).filter
          fun f => endsWithS f ".csv" && decide (101 ≤ revD f)).map
          fun f => input_dir ++ "/" ++ f := by
  intro l
  induction l with
  | nil => intro _; rfl
  | cons f rest ih =>
    intro h
    have hrest := ih fun j hj hcsv => h j (List.mem_cons_of_mem f hj) hcsv
    by_cases hcsv : endsWithS f ".csv" = true
    · obtain ⟨hlen, hok⟩ := h f (List.mem_cons_self f rest) hcsv
      obtain ⟨p0, p1, p2, tail, hsp⟩ := exists_three_of_len hlen
      cases hp : parseRevE f with
      | error e => rw [hp] at hok; simp [isOkE] at hok
      | ok rv =>
        have hrv : revD f = rv := revD_eq_of_parse hp
        by_cases hgt : env.B < rv
        · by_cases h101 : 101 ≤ rv
          · have hps := procFile_success f (p1 ++ "_" ++ p2) rv hdry (hconv f) (hval f) hpcf
            have hstep : descStep env f = procFile env f (p1 ++ "_" ++ p2) rv := by
              unfold descStep
              simp [hcsv, hsp, hp, beq_iff_eq, hB, hgt, h101]
            rw [descLoop_cons, hstep, hps.1]
            simp [convertedOf_append, hps.2, hrest, List.takeWhile_cons,
              List.filter_cons, hcsv, hrv, hgt, h101]
          · have hstep : descStep env f = ([], StepRes.next) := by
              unfold descStep
              simp [hcsv, hsp, hp, beq_iff_eq, hB, hgt, h101]
            rw [descLoop_cons, hstep]
            simp [hrest, List.takeWhile_cons, List.filter_cons, hcsv, hrv, hgt, h101,
              convertedOf_nil]
        · have hstep : descStep env f = ([], StepRes.stop) := by
            unfold descStep
            simp [hcsv, hsp, hp, beq_iff_eq, hB, hgt]
          rw [descLoop_cons, hstep]
          simp [List.takeWhile_cons, hcsv, hrv, hgt, convertedOf_nil]
    · have hcsv' : endsWithS f ".csv" = false := by
        cases hb : endsWithS f ".csv"
        · rfl
        · exact absurd hb hcsv
      have hstep : descStep env f = ([], StepRes.next) := by
        unfold descStep
        simp [hcsv']
      rw [descLoop_cons, hstep]
      simp [hrest, List.takeWhile_cons, List.filter_cons, hcsv', convertedOf_nil]

/-- The run used to refute claim C1: baseline 50, one CSV file with revision
60, which exceeds the baseline. -/
def envC1 : DescEnv :=
  { listing := ["a_d_t_revid60_r.csv"], B := 50, dry := false,
    convOk := fun _ => true, valOk := fun _ => true,
    pathExists := fun _ => false, diffItems := [], protocol := "p" }

/-- Claim C1 (corrected, counterexample): the claim says the processed set is
exactly the CSV files whose revision exceeds the baseline. Here the only file
is a CSV with revision 60 above the baseline 50, the run completes without
exception, and yet nothing is converted: the descending variant additionally
requires the revision to be at least 101. -/
theorem C1_selection_counterexample :
    envC1.B = 50 ∧ parseRevE "a_d_t_revid60_r.csv" = Except.ok 60 ∧
    endsWithS "a_d_t_revid60_r.csv" ".csv" = true ∧
    "a_d_t_revid60_r.csv" ∈ envC1.listing ∧
    (mainDesc envC1).2 = Except.ok () ∧
    convertedOf (mainDesc envC1).1 = [] :=
  ⟨rfl, by decide, by decide, by decide, by decide, by decide⟩

/-- Claim C1 (amended): in the ascending variant the selection is exactly the
CSV files whose revision exceeds the baseline, ordered ascending by revision
(stated as: the selected list is a permutation of that filter and is sorted
by revision). In the descending variant with a nonzero baseline, filenames
are scanned in descending lexicographic order with an early stop at the
first CSV whose revision does not exceed the baseline, and within the
scanned prefix exactly the CSV files with revision at least 101 are
converted, in that scan order. -/
theorem C1_selection_amended :
    (∀ (L : List String) (B : Int),
      (∀ f ∈ L, endsWithS f ".csv" = true → isOkE (parseRevE f) = true) →
      ∃ sel, ascSelected (L.filter fun f => endsWithS f ".csv") B = Except.ok sel ∧
        sel.Perm ((L.filter fun f => endsWithS f ".csv").filter
          fun f => decide (B < revD f)) ∧
        sel.Sorted fun a b => revD a ≤ revD b) ∧
    (∀ env : DescEnv, env.dry = false → env.B ≠ 0 →
      (∀ f, env.convOk f = true) → (∀ f, env.valOk f = true) →
      (process_changed_files env.diffItems false).2 = none →
      (∀ f ∈ env.listing, endsWithS f ".csv" = true →
        3 ≤ (splitParts f).length ∧ isOkE (parseRevE f) = true) →
      convertedOf (mainDesc env).1 =
        (((sortedFilenames env).takeWhile
            fun f => !(endsWithS f ".csv") || decide (env.B < revD f)).filter
            fun f => endsWithS f ".csv" && decide (101 ≤ revD f)).map
          fun f => input_dir ++ "/" ++ f) := by
  constructor
  · intro L B h
    have hcsv : ∀ f ∈ L.filter (fun f => endsWithS f ".csv"),
        isOkE (parseRevE f) = true := by
      intro f hf
      rw [List.mem_filter] at hf
      exact h f hf.1 hf.2
    exact ⟨_, ascSelected_ok _ B hcsv, List.perm_insertionSort _ _,
      List.sorted_insertionSort _ _⟩
  · intro env hdry hB hconv hval hpcf hwf
    have hwf' : ∀ f ∈ sortedFilenames env, endsWithS f ".csv" = true →
        3 ≤ (splitParts f).length ∧ isOkE (parseRevE f) = true := by
      intro f hf
      refine hwf f ?_
      unfold sortedFilenames at hf
      split at hf <;> rwa [List.mem_insertionSort] at hf
    exact descLoop_clean_converted env hdry hB hconv hval hpcf (sortedFilenames env) hwf'

/-- The run used to witness the amended claim C1: baseline 1, one eligible
CSV file and one non CSV file. -/
def envC1w : DescEnv :=
  { listing := ["a_d_t_revid102_r.csv", "x.txt"], B := 1, dry := false,
    convOk := fun _ => true, valOk := fun _ => true,
    pathExists := fun _ => false, diffItems := [], protocol := "p" }

theorem C1_selection_amended_witness :
    (∃ sel, ascSelected (["b_d_t_revid102_r.csv"].filter fun f => endsWithS f ".csv") 0 =
        Except.ok sel ∧
      sel.Perm ((["b_d_t_revid102_r.csv"].filter fun f => endsWithS f ".csv").filter
        fun f => decide ((0 : Int) < revD f)) ∧
      sel.Sorted fun a b => revD a ≤ revD b) ∧
    convertedOf (mainDesc envC1w).1 =
      (((sortedFilenames envC1w).takeWhile
          fun f => !(endsWithS f ".csv") || decide (envC1w.B < revD f)).filter
          fun f => endsWithS f ".csv" && decide (101 ≤ revD f)).map
        fun f => input_dir ++ "/" ++ f :=
  ⟨C1_selection_amended.1 ["b_d_t_revid102_r.csv"] 0 (by decide),
    C1_selection_amended.2 envC1w rfl (by decide) (fun f => rfl) (fun f => rfl)
      (by decide) (by decide)⟩
